import Mathlib

/-!
Verification of the Trinity Beat rhythm-game core (src/components/
FloatingTextManager.tsx third document: the App component; src/unnamed/part_000:
AudioService; src/unnamed/part_001: the shared types).

The embedding models the authoritative game state held in React refs
(beatsRef, scoreRef, comboRef, heatRef and the phase) and the three core
operations:
  * `startGame`   — chart validation/parsing and the SETUP → PLAYING transition;
  * `handleLaneInput` — the judgment engine run on a lane press;
  * `loop`        — one tick of the main requestAnimationFrame loop (heat
                    decay, end-of-song check, miss sweep).
JS numbers are modelled as rationals (every literal the game uses is a decimal
fraction).  Presentation-only state (floating texts, debris, shockwaves, lane
lasers, pulse brightness, shake, the throttled UI sync and the transient
active-lane flags) is omitted: it feeds rendering only and never feeds back
into score, combo, heat, the note flags or the phase.  Chart entry times are
modelled as numeric: the loader performs no validation on them, and entries
with non-numeric times only lead to NaN comparisons downstream, outside every
claim considered here.
-/

attribute [local semireducible] Rat.add Rat.sub Rat.mul Rat.inv

namespace Boom

/-- Game phases, from the GameState enum in the types file. -/
inductive GameState where
  | SETUP
  | PLAYING
  | FINISHED
deriving DecidableEq, Repr

/-- A chart note, from the Beat interface in the types file.  The lane is a
rational because the chart loader passes arbitrary numeric lane values through
unchanged (`b.lane ?? 1`). -/
structure Beat where
  id : Nat
  time : ℚ
  lane : ℚ
  hit : Bool
  missed : Bool
deriving DecidableEq, Repr

/-- The authoritative game state: gameState plus the beatsRef, scoreRef,
comboRef and heatRef refs of the App component. -/
structure GState where
  phase : GameState
  beats : List Beat
  score : Nat
  combo : Nat
  heat : ℚ
deriving DecidableEq, Repr

/-- Math.abs on the JS numbers the game feeds it. -/
def Math.abs (x : ℚ) : ℚ := if x < 0 then -x else x

/-- Math.max on the JS numbers the game feeds it. -/
def Math.max (x y : ℚ) : ℚ := if x < y then y else x

/-- Math.min on the JS numbers the game feeds it. -/
def Math.min (x y : ℚ) : ℚ := if x < y then x else y

/-- HIT_WINDOW = 0.15 in the source. -/
def HIT_WINDOW : ℚ := mkRat 15 100

/-- PERFECT_WINDOW = 0.05 in the source. -/
def PERFECT_WINDOW : ℚ := mkRat 5 100

/-- The judgment labels of handleLaneInput. -/
inductive Rating where
  | PERFECT
  | GREAT
  | BLOOM
deriving DecidableEq, Repr

/-- The predicate of the `.find` call in handleLaneInput:
`!b.hit && !b.missed && b.lane === laneIndex && Math.abs(b.time - currentTime) < HIT_WINDOW`. -/
def hittable (laneIndex now : ℚ) (b : Beat) : Bool :=
  !b.hit && !b.missed && decide (b.lane = laneIndex) &&
    decide (Math.abs (b.time - now) < HIT_WINDOW)

/-- `beatsRef.current.find(...)` followed by the in-place `hittableBeat.hit = true`:
returns the first hittable beat (as found, flags still clear) together with the
note list after the mutation; `none` when no beat qualifies. -/
def hitFind (laneIndex now : ℚ) : List Beat → Option (Beat × List Beat)
  | [] => none
  | b :: rest =>
    if hittable laneIndex now b then
      some (b, { b with hit := true } :: rest)
    else
      match hitFind laneIndex now rest with
      | none => none
      | some (c, l) => some (c, b :: l)

/-- handleLaneInput: the judgment engine.  `rand` stands for the
`Math.random()` draw of the BLOOM upgrade.  Returns the updated state and the
rating shown (none when the press judged nothing). -/
def handleLaneInput (laneIndex now rand : ℚ) (s : GState) : GState × Option Rating :=
  if s.phase ≠ GameState.PLAYING then (s, none)
  else if now < 0 then (s, none)
  else
    match hitFind laneIndex now s.beats with
    | none => (s, none)
    | some (b, bs) =>
      let diff := Math.abs (b.time - now)
      let rating : Rating :=
        if diff < PERFECT_WINDOW then
          if 30 < s.combo ∧ mkRat 4 5 < rand then Rating.BLOOM else Rating.PERFECT
        else Rating.GREAT
      let scoreAdd : Nat := if diff < PERFECT_WINDOW then 300 else 100
      let heatAdd : ℚ := if diff < PERFECT_WINDOW then 10 else 5
      ({ s with
          beats := bs,
          score := s.score + scoreAdd,
          combo := s.combo + 1,
          heat := Math.min 100 (s.heat + heatAdd) }, some rating)

/-- The miss condition of the per-tick sweep:
`!beat.hit && !beat.missed && now > beat.time + HIT_WINDOW`. -/
def sweepCond (now : ℚ) (b : Beat) : Bool :=
  !b.hit && !b.missed && decide (b.time + HIT_WINDOW < now)

/-- The `beatsRef.current.forEach` miss sweep of the loop: walks the notes in
chart order carrying combo and heat, marking each overdue note missed and
applying the per-miss penalty (`combo = 0`, `heat = max(0, heat - 15)`). -/
def sweep (now : ℚ) : List Beat → Nat → ℚ → List Beat × Nat × ℚ
  | [], combo, heat => ([], combo, heat)
  | b :: rest, combo, heat =>
    if sweepCond now b then
      let r := sweep now rest 0 (Math.max 0 (heat - 15))
      ({ b with missed := true } :: r.1, r.2)
    else
      let r := sweep now rest combo heat
      (b :: r.1, r.2)

/-- One tick of the main loop, restricted to the authoritative state: heat
decay by 0.15, then the end-of-song check (`now > duration + 2 && duration > 0`,
which returns early), then the miss sweep (only when `now > 0`).  `dur` is what
`audioService.getDuration()` reports.  Outside PLAYING the loop is not
scheduled at all, modelled as the identity. -/
def loop (now dur : ℚ) (s : GState) : GState :=
  if s.phase ≠ GameState.PLAYING then s
  else
    let h1 := Math.max 0 (s.heat - mkRat 15 100)
    if dur + 2 < now ∧ 0 < dur then { s with heat := h1, phase := GameState.FINISHED }
    else if 0 < now then
      let r := sweep now s.beats s.combo h1
      { s with beats := r.1, combo := r.2.1, heat := r.2.2 }
    else { s with heat := h1 }

/-- A gameplay event: one tick of the loop or one lane press. -/
inductive GameOp where
  | tickOp (now dur : ℚ)
  | pressOp (laneIndex now rand : ℚ)

/-- Apply one gameplay event to the state. -/
def applyOp : GameOp → GState → GState
  | GameOp.tickOp now dur, s => loop now dur s
  | GameOp.pressOp laneIndex now rand, s => (handleLaneInput laneIndex now rand s).1

/-- Apply a sequence of gameplay events in order. -/
def applyOps (ops : List GameOp) (s : GState) : GState :=
  ops.foldl (fun s op => applyOp op s) s

/-- One element of the parsed chart JSON array, as startGame's map sees it:
a bare number, an object (with a numeric time and an optional lane field —
`none` models an absent/undefined/null lane), or a null/undefined element,
whose `.time` access throws. -/
inductive ChartEntry where
  | num (t : ℚ)
  | obj (time : ℚ) (lane : Option ℚ)
  | nullish
deriving DecidableEq, Repr

/-- One step of startGame's `beatData.map`:
`{ id: i, time: typeof b === 'number' ? b : b.time, lane: typeof b === 'number' ? 1 : (b.lane ?? 1), hit: false, missed: false }`;
`none` when the element is null/undefined and the member access throws. -/
def parseBeat (i : Nat) : ChartEntry → Option Beat
  | ChartEntry.num t => some { id := i, time := t, lane := 1, hit := false, missed := false }
  | ChartEntry.obj t l => some { id := i, time := t, lane := l.getD 1, hit := false, missed := false }
  | ChartEntry.nullish => none

/-- The whole `beatData.map((b, i) => ...)` call starting at index `i`: `none`
when any element throws (the exception aborts the map before any ref is
written). -/
def parseBeats : Nat → List ChartEntry → Option (List Beat)
  | _, [] => some []
  | i, e :: rest =>
    match parseBeat i e, parseBeats (i + 1) rest with
    | some b, some bs => some (b :: bs)
    | _, _ => none

/-- Chart order: ascending time, the key of `parsedBeats.sort((a, b) => a.time - b.time)`. -/
def timeLE (a b : Beat) : Prop := a.time ≤ b.time

instance : DecidableRel timeLE := fun a b => inferInstanceAs (Decidable (a.time ≤ b.time))

instance : IsTotal Beat timeLE := ⟨fun a b => le_total a.time b.time⟩

instance : IsTrans Beat timeLE := ⟨fun _ _ _ h₁ h₂ => le_trans h₁ h₂⟩

/-- `parsedBeats.sort((a, b) => a.time - b.time)`: Array.prototype.sort is
stable (ES2019), so it agrees with stable insertion sort on the same key. -/
def sortChart (bs : List Beat) : List Beat := List.insertionSort timeLE bs

/-- The chart payload startGame receives: no text in the box, JSON.parse
throwing, a parsed non-array value, or a parsed array of entries. -/
inductive Payload where
  | empty
  | parseError
  | notArr
  | arr (es : List ChartEntry)
deriving DecidableEq, Repr

/-- How startGame ends: the PLAYING transition, or one of its three alert
paths (audio not ready, no chart text, caught exception 谱面数据无效). -/
inductive StartResult where
  | started
  | errNotReady
  | errNoInput
  | errInvalid
deriving DecidableEq, Repr

/-- startGame: guards (`audioService.isReady()`, non-empty input), JSON
validation (`Array.isArray`), the parse map, the stable sort, and the reset of
every ref before `setGameState(GameState.PLAYING)`.  All mutations happen
after the fallible steps, so a caught exception leaves the state untouched. -/
def startGame (ready : Bool) (p : Payload) (s : GState) : GState × StartResult :=
  if !ready then (s, StartResult.errNotReady)
  else
    match p with
    | Payload.empty => (s, StartResult.errNoInput)
    | Payload.parseError => (s, StartResult.errInvalid)
    | Payload.notArr => (s, StartResult.errInvalid)
    | Payload.arr es =>
      match parseBeats 0 es with
      | none => (s, StartResult.errInvalid)
      | some bs =>
        ({ phase := GameState.PLAYING, beats := sortChart bs,
           score := 0, combo := 0, heat := 0 }, StartResult.started)

/-- AudioService (src/unnamed/part_000), restricted to what the claims need:
whether the AudioContext exists, whether a source node is connected, whether a
buffer is loaded, and the scheduled start time.  `ctxNow` stands for the
external `ctx.currentTime`. -/
structure AudioService where
  ctxActive : Bool
  sourceActive : Bool
  bufferLoaded : Bool
  startTime : ℚ
deriving DecidableEq, Repr

/-- The service as constructed: no context, no source, no buffer. -/
def AudioService.initial : AudioService :=
  { ctxActive := false, sourceActive := false, bufferLoaded := false, startTime := 0 }

/-- `getCurrentTime`: `if (!this.ctx || !this.source) return 0; return this.ctx.currentTime - this.startTime`. -/
def AudioService.getCurrentTime (a : AudioService) (ctxNow : ℚ) : ℚ :=
  if !a.ctxActive || !a.sourceActive then 0 else ctxNow - a.startTime

/-- `stop`: stops and disconnects the source and nulls it out. -/
def AudioService.stop (a : AudioService) : AudioService :=
  { a with sourceActive := false }

/-- `play(delay)`: requires a context and a buffer, replaces the source and
schedules it at `ctx.currentTime + delay`, recording that as startTime. -/
def AudioService.play (a : AudioService) (ctxNow delay : ℚ) : AudioService :=
  if !a.ctxActive || !a.bufferLoaded then a
  else { a with sourceActive := true, startTime := ctxNow + delay }

theorem mathAbs_eq (x : ℚ) : Math.abs x = |x| := by
  unfold Math.abs
  rcases lt_or_le x 0 with h | h
  · rw [if_pos h, abs_of_neg h]
  · rw [if_neg (not_lt.mpr h), abs_of_nonneg h]

theorem mathMax_eq (x y : ℚ) : Math.max x y = max x y := by
  unfold Math.max
  rcases lt_or_le x y with h | h
  · rw [if_pos h, max_eq_right h.le]
  · rw [if_neg (not_lt.mpr h), max_eq_left h]

theorem mathMin_eq (x y : ℚ) : Math.min x y = min x y := by
  unfold Math.min
  rcases lt_or_le x y with h | h
  · rw [if_pos h, min_eq_left h.le]
  · rw [if_neg (not_lt.mpr h), min_eq_right h]

theorem hitFind_some (laneIndex now : ℚ) (bs : List Beat) (b : Beat) (l : List Beat)
    (h : hitFind laneIndex now bs = some (b, l)) :
    hittable laneIndex now b = true ∧
    ∃ l₁ l₂, bs = l₁ ++ b :: l₂ ∧ l = l₁ ++ { b with hit := true } :: l₂ ∧
      ∀ c ∈ l₁, hittable laneIndex now c = false := by
  induction bs generalizing l with
  | nil => simp [hitFind] at h
  | cons a rest ih =>
    rw [hitFind] at h
    by_cases ha : hittable laneIndex now a = true
    · rw [if_pos ha] at h
      injection h with h1
      obtain ⟨rfl, rfl⟩ := Prod.mk.injEq .. ▸ h1
      exact ⟨ha, [], rest, rfl, rfl, fun c hc => absurd hc (List.not_mem_nil c)⟩
    · rw [if_neg ha] at h
      cases hf : hitFind laneIndex now rest with
      | none => rw [hf] at h; exact absurd h (by simp)
      | some p =>
        obtain ⟨c0, l0⟩ := p
        rw [hf] at h
        injection h with h1
        obtain ⟨rfl, rfl⟩ := Prod.mk.injEq .. ▸ h1
        obtain ⟨hb, l₁, l₂, hbs, hl, hl₁⟩ := ih l0 hf
        refine ⟨hb, a :: l₁, l₂, by rw [hbs]; rfl, by rw [hl]; rfl, ?_⟩
        intro c hc
        rcases List.mem_cons.mp hc with rfl | hc
        · exact Bool.not_eq_true _ ▸ (by simpa using ha)
        · exact hl₁ c hc

theorem max_zero_sub (x y : ℚ) (hy : 0 ≤ y) : max 0 (max 0 x - y) = max 0 (x - y) := by
  rcases le_or_lt 0 x with hx | hx
  · rw [max_eq_right hx]
  · rw [max_eq_left hx.le, zero_sub,
      max_eq_left (neg_nonpos.mpr hy), max_eq_left (by linarith)]

theorem sweep_eq (now : ℚ) (bs : List Beat) (combo : Nat) (heat : ℚ) :
    sweep now bs combo heat =
      (bs.map fun b => if sweepCond now b then { b with missed := true } else b,
       if bs.countP (sweepCond now) = 0 then combo else 0,
       if bs.countP (sweepCond now) = 0 then heat
       else max 0 (heat - 15 * (bs.countP (sweepCond now) : ℚ))) := by
  induction bs generalizing combo heat with
  | nil => simp [sweep]
  | cons b rest ih =>
    by_cases hc : sweepCond now b = true
    · have hcount : (b :: rest).countP (sweepCond now) = rest.countP (sweepCond now) + 1 := by
        simp [List.countP_cons, hc]
      rw [sweep, if_pos hc, ih, hcount]
      simp only [List.map_cons, hc, if_true, Nat.succ_ne_zero, if_false, mathMax_eq,
        Prod.mk.injEq, ite_self]
      refine ⟨trivial, trivial, ?_⟩
      by_cases hk : rest.countP (sweepCond now) = 0
      · simp [hk]
      · simp only [hk, if_false]
        rw [max_zero_sub (heat - 15) _ (mul_nonneg (by norm_num) (Nat.cast_nonneg _))]
        congr 1
        push_cast
        ring
    · have hcount : (b :: rest).countP (sweepCond now) = rest.countP (sweepCond now) := by
        simp [List.countP_cons, hc]
      rw [sweep, if_neg hc, ih, hcount]
      simp [hc]

/-- A PLAYING state with one centre-lane note at t = 1 and a 31-note combo
streak, about to be pressed dead on time with a random draw of 0.9. -/
def bloomState : GState :=
  { phase := GameState.PLAYING,
    beats := [{ id := 0, time := 1, lane := 1, hit := false, missed := false }],
    score := 0, combo := 31, heat := 0 }

/-- A PLAYING state with one centre-lane note at t = 1 and no streak. -/
def oneNoteState : GState :=
  { phase := GameState.PLAYING,
    beats := [{ id := 0, time := 1, lane := 1, hit := false, missed := false }],
    score := 0, combo := 0, heat := 0 }

/-- C1 counterexample: a press during PLAYING at currentTime 1 on a note at
time 1 (diff 0 < 0.05) with combo 31 and random draw 0.9 is rated BLOOM, not
PERFECT, contradicting the claim that every press with diff < 0.05 rates
PERFECT. -/
theorem c1_bloom_counterexample :
    Math.abs ((1 : ℚ) - 1) < PERFECT_WINDOW ∧
    (handleLaneInput 1 1 (mkRat 9 10) bloomState).2 = some Rating.BLOOM ∧
    (handleLaneInput 1 1 (mkRat 9 10) bloomState).2 ≠ some Rating.PERFECT := by
  decide

/-- C1 (amended): a lane press judged during PLAYING at currentTime ≥ 0 that
finds an eligible note adds exactly 1 to combo; when diff < 0.05 it adds 300
to score and 10 to heat capped at 100, and rates PERFECT — upgraded to BLOOM
exactly when combo > 30 and the random draw exceeds 0.8; when 0.05 ≤ diff
(< 0.15, forced by eligibility) it adds 100 to score and 5 to heat capped at
100 and rates GREAT, so a diff of exactly 0.05 rates GREAT; and a note whose
diff is exactly 0.15 is never hittable. -/
theorem c1_judgement_windows (laneIndex now rand : ℚ) (s : GState) (b : Beat) (bs : List Beat)
    (hp : s.phase = GameState.PLAYING) (hn : 0 ≤ now)
    (hf : hitFind laneIndex now s.beats = some (b, bs)) :
    ((handleLaneInput laneIndex now rand s).1.combo = s.combo + 1) ∧
    (Math.abs (b.time - now) < PERFECT_WINDOW →
      (handleLaneInput laneIndex now rand s).1.score = s.score + 300 ∧
      (handleLaneInput laneIndex now rand s).1.heat = Math.min 100 (s.heat + 10) ∧
      (handleLaneInput laneIndex now rand s).2 =
        some (if 30 < s.combo ∧ mkRat 4 5 < rand then Rating.BLOOM else Rating.PERFECT)) ∧
    (PERFECT_WINDOW ≤ Math.abs (b.time - now) →
      (handleLaneInput laneIndex now rand s).1.score = s.score + 100 ∧
      (handleLaneInput laneIndex now rand s).1.heat = Math.min 100 (s.heat + 5) ∧
      (handleLaneInput laneIndex now rand s).2 = some Rating.GREAT) ∧
    (∀ c : Beat, Math.abs (c.time - now) = HIT_WINDOW → hittable laneIndex now c = false) := by
  have h1 : handleLaneInput laneIndex now rand s =
      ({ s with
          beats := bs,
          score := s.score + (if Math.abs (b.time - now) < PERFECT_WINDOW then 300 else 100),
          combo := s.combo + 1,
          heat := Math.min 100
            (s.heat + (if Math.abs (b.time - now) < PERFECT_WINDOW then (10 : ℚ) else 5)) },
        some (if Math.abs (b.time - now) < PERFECT_WINDOW then
            (if 30 < s.combo ∧ mkRat 4 5 < rand then Rating.BLOOM else Rating.PERFECT)
          else Rating.GREAT)) := by
    rw [handleLaneInput, if_neg (by simp [hp]), if_neg (not_lt.mpr hn), hf]
  refine ⟨by rw [h1], ?_, ?_, ?_⟩
  · intro hd
    rw [h1]
    simp only [if_pos hd]
    exact ⟨trivial, trivial, trivial⟩
  · intro hd
    rw [h1]
    simp only [if_neg (not_lt.mpr hd)]
    exact ⟨trivial, trivial, trivial⟩
  · intro c hc
    simp [hittable, hc]

/-- C1 witness: at the concrete one-note state, pressing lane 1 at
currentTime 1 (diff 0) yields score 0 + 300. -/
theorem c1_judgement_windows_witness :
    (handleLaneInput 1 1 0 oneNoteState).1.score = oneNoteState.score + 300 :=
  ((c1_judgement_windows 1 1 0 oneNoteState ⟨0, 1, 1, false, false⟩
      [⟨0, 1, 1, true, false⟩] rfl (by decide) (by decide)).2.1 (by decide)).1

/-- C2: a tick of the loop moves the phase to FINISHED exactly when it was
already FINISHED or it was PLAYING and currentTime > duration + 2 with
duration > 0; and once the phase is FINISHED a tick changes nothing, so the
transition fires at most once and ticking stops afterwards. -/
theorem c2_finish_transition (now dur : ℚ) (s : GState) :
    ((loop now dur s).phase = GameState.FINISHED ↔
      s.phase = GameState.FINISHED ∨
        (s.phase = GameState.PLAYING ∧ dur + 2 < now ∧ 0 < dur)) ∧
    (s.phase = GameState.FINISHED → loop now dur s = s) := by
  obtain ⟨ph, bts, sc, co, he⟩ := s
  cases ph with
  | SETUP => simp [loop]
  | FINISHED => simp [loop]
  | PLAYING =>
    by_cases hfin : dur + 2 < now ∧ 0 < dur
    · simp [loop, hfin]
    · by_cases hz : 0 < now
      · simp [loop, hfin, hz]
      · simp [loop, hfin, hz]

/-- A PLAYING state with one already-overdue note when the song is about to
finish: at the tick now = 3.5 with duration 1, the finish check fires before
the miss sweep. -/
def preFinishState : GState :=
  { phase := GameState.PLAYING,
    beats := [{ id := 0, time := 3, lane := 1, hit := false, missed := false }],
    score := 0, combo := 5, heat := 50 }

/-- C3 counterexample: on the tick at currentTime 3.5 (> 0) with duration 1,
the note at time 3 satisfies the miss condition (3.5 > 3 + 0.15, flags clear),
yet the tick leaves it unmarked and combo at 5, because the finish check
returns before the sweep runs; this contradicts the claim that every such
tick marks the note missed and resets combo. -/
theorem c3_finish_skips_sweep_counterexample :
    (0 : ℚ) < mkRat 7 2 ∧
    sweepCond (mkRat 7 2) { id := 0, time := 3, lane := 1, hit := false, missed := false } = true ∧
    (loop (mkRat 7 2) 1 preFinishState).beats = preFinishState.beats ∧
    (loop (mkRat 7 2) 1 preFinishState).combo = 5 ∧
    (loop (mkRat 7 2) 1 preFinishState).phase = GameState.FINISHED := by
  decide

/-- C3 (amended): on every PLAYING tick on which the finish condition does not
fire, if currentTime > 0 the sweep marks exactly the notes with both flags
clear and currentTime > time + 0.15 as missed, resets combo to 0 when any such
note exists, and applies `heat := max(0, heat − 15)` once per newly-missed
note on top of the tick's 0.15 decay; if currentTime ≤ 0 no note changes and
only the decay applies. -/
theorem c3_miss_sweep (now dur : ℚ) (s : GState)
    (hp : s.phase = GameState.PLAYING)
    (hfin : ¬(dur + 2 < now ∧ 0 < dur)) :
    (0 < now →
      (loop now dur s).beats =
        s.beats.map (fun b => if sweepCond now b then { b with missed := true } else b) ∧
      (loop now dur s).combo =
        (if s.beats.countP (sweepCond now) = 0 then s.combo else 0) ∧
      (loop now dur s).heat =
        max 0 (max 0 (s.heat - mkRat 15 100) - 15 * (s.beats.countP (sweepCond now) : ℚ))) ∧
    (¬0 < now →
      (loop now dur s).beats = s.beats ∧ (loop now dur s).combo = s.combo ∧
      (loop now dur s).heat = max 0 (s.heat - mkRat 15 100)) := by
  constructor
  · intro hz
    have h1 : loop now dur s =
        { s with
            beats := (sweep now s.beats s.combo (Math.max 0 (s.heat - mkRat 15 100))).1,
            combo := (sweep now s.beats s.combo (Math.max 0 (s.heat - mkRat 15 100))).2.1,
            heat := (sweep now s.beats s.combo (Math.max 0 (s.heat - mkRat 15 100))).2.2 } := by
      simp only [loop]
      rw [if_neg (by simp [hp]), if_neg hfin, if_pos hz]
    rw [h1, sweep_eq]
    refine ⟨rfl, rfl, ?_⟩
    by_cases hk : s.beats.countP (sweepCond now) = 0
    · simp only [hk, if_true, Nat.cast_zero, mul_zero, sub_zero, mathMax_eq]
      rw [max_eq_right (le_max_left 0 _)]
    · simp only [hk, if_false, mathMax_eq]
  · intro hz
    have h1 : loop now dur s = { s with heat := Math.max 0 (s.heat - mkRat 15 100) } := by
      simp only [loop]
      rw [if_neg (by simp [hp]), if_neg hfin, if_neg hz]
    rw [h1]
    exact ⟨rfl, rfl, mathMax_eq _ _⟩

/-- A PLAYING state whose single note is already overdue at currentTime 2. -/
def missState : GState :=
  { phase := GameState.PLAYING,
    beats := [{ id := 0, time := 1, lane := 1, hit := false, missed := false }],
    score := 0, combo := 5, heat := 50 }

/-- C3 witness: the concrete tick at currentTime 2, duration 10 sweeps the
overdue note and resets the combo. -/
theorem c3_miss_sweep_witness :
    (loop 2 10 missState).combo =
      (if missState.beats.countP (sweepCond 2) = 0 then missState.combo else 0) :=
  ((c3_miss_sweep 2 10 missState rfl (by decide)).1 (by decide)).2.1

/-- How one gameplay event can change one note: untouched, or freshly marked
hit, or freshly marked missed (the latter two only from an all-clear state). -/
def noteStep (b c : Beat) : Prop :=
  c = b ∨ (b.hit = false ∧ b.missed = false ∧
    (c = { b with hit := true } ∨ c = { b with missed := true }))

/-- The facts C4 extracts from a chain of note steps: a flagged note is frozen,
and the two flags can never both be set by a step. -/
def flagEvolution (b c : Beat) : Prop :=
  (b.hit = true ∨ b.missed = true → c = b) ∧
  (c.hit = true ∧ c.missed = true → b.hit = true ∧ b.missed = true)

theorem noteStep_flagEvolution {b c : Beat} (h : noteStep b c) : flagEvolution b c := by
  rcases h with rfl | ⟨hh, hm, rfl | rfl⟩
  · exact ⟨fun _ => rfl, fun h => h⟩
  · refine ⟨?_, ?_⟩ <;> intro h <;> simp_all
  · refine ⟨?_, ?_⟩ <;> intro h <;> simp_all

theorem flagEvolution_refl (b : Beat) : flagEvolution b b :=
  ⟨fun _ => rfl, fun h => h⟩

theorem flagEvolution_trans {a b c : Beat}
    (h₁ : flagEvolution a b) (h₂ : flagEvolution b c) : flagEvolution a c := by
  refine ⟨?_, fun h => h₁.2 (h₂.2 h)⟩
  intro h
  have hb : b = a := h₁.1 h
  have hc : c = b := h₂.1 (by rw [hb]; exact h)
  rw [hc, hb]

theorem forall₂_flagEvolution_refl (l : List Beat) : List.Forall₂ flagEvolution l l :=
  List.forall₂_same.mpr fun b _ => flagEvolution_refl b

theorem forall₂_flagEvolution_trans {l₁ l₂ l₃ : List Beat}
    (h₁ : List.Forall₂ flagEvolution l₁ l₂) (h₂ : List.Forall₂ flagEvolution l₂ l₃) :
    List.Forall₂ flagEvolution l₁ l₃ := by
  induction h₁ generalizing l₃ with
  | nil => cases h₂; exact List.Forall₂.nil
  | cons hab h ih =>
    cases h₂ with
    | cons hbc h' => exact List.Forall₂.cons (flagEvolution_trans hab hbc) (ih h')

theorem forall₂_flagEvolution_append {l₁ l₂ u₁ u₂ : List Beat}
    (h : List.Forall₂ flagEvolution l₁ l₂) (h' : List.Forall₂ flagEvolution u₁ u₂) :
    List.Forall₂ flagEvolution (l₁ ++ u₁) (l₂ ++ u₂) := by
  induction h with
  | nil => simpa using h'
  | cons hab h ih => exact List.Forall₂.cons hab ih

theorem hittable_flags {laneIndex now : ℚ} {b : Beat} (h : hittable laneIndex now b = true) :
    b.hit = false ∧ b.missed = false := by
  simp only [hittable, Bool.and_eq_true, Bool.not_eq_true'] at h
  exact ⟨h.1.1.1, h.1.1.2⟩

theorem sweepCond_flags {now : ℚ} {b : Beat} (h : sweepCond now b = true) :
    b.hit = false ∧ b.missed = false := by
  simp only [sweepCond, Bool.and_eq_true, Bool.not_eq_true'] at h
  exact ⟨h.1.1, h.1.2⟩

theorem applyOp_forall₂ (op : GameOp) (s : GState) :
    List.Forall₂ flagEvolution s.beats (applyOp op s).beats := by
  cases op with
  | tickOp now dur =>
    simp only [applyOp]
    by_cases hp : s.phase ≠ GameState.PLAYING
    · rw [loop, if_pos hp]
      exact forall₂_flagEvolution_refl _
    · simp only [loop]
      rw [if_neg hp]
      by_cases hfin : dur + 2 < now ∧ 0 < dur
      · rw [if_pos hfin]
        exact forall₂_flagEvolution_refl _
      · rw [if_neg hfin]
        by_cases hz : 0 < now
        · rw [if_pos hz]
          show List.Forall₂ flagEvolution s.beats (sweep now s.beats s.combo _).1
          rw [sweep_eq]
          rw [List.forall₂_map_right_iff]
          refine List.forall₂_same.mpr fun b _ => ?_
          by_cases hc : sweepCond now b = true
          · rw [if_pos hc]
            exact noteStep_flagEvolution
              (Or.inr ⟨(sweepCond_flags hc).1, (sweepCond_flags hc).2, Or.inr rfl⟩)
          · rw [if_neg hc]
            exact flagEvolution_refl b
        · rw [if_neg hz]
          exact forall₂_flagEvolution_refl _
  | pressOp laneIndex now rand =>
    simp only [applyOp]
    rw [handleLaneInput]
    by_cases hp : s.phase ≠ GameState.PLAYING
    · rw [if_pos hp]
      exact forall₂_flagEvolution_refl _
    · rw [if_neg hp]
      by_cases hn : now < 0
      · rw [if_pos hn]
        exact forall₂_flagEvolution_refl _
      · rw [if_neg hn]
        cases hf : hitFind laneIndex now s.beats with
        | none =>
          exact forall₂_flagEvolution_refl _
        | some p =>
          obtain ⟨b, bs⟩ := p
          obtain ⟨hb, l₁, l₂, hbs, hl, -⟩ := hitFind_some _ _ _ _ _ hf
          show List.Forall₂ flagEvolution s.beats bs
          rw [hbs, hl]
          refine forall₂_flagEvolution_append (forall₂_flagEvolution_refl l₁)
            (List.Forall₂.cons ?_ (forall₂_flagEvolution_refl l₂))
          exact noteStep_flagEvolution
            (Or.inr ⟨(hittable_flags hb).1, (hittable_flags hb).2, Or.inl rfl⟩)

theorem applyOps_forall₂ (ops : List GameOp) (s : GState) :
    List.Forall₂ flagEvolution s.beats (applyOps ops s).beats := by
  induction ops generalizing s with
  | nil => exact forall₂_flagEvolution_refl _
  | cons op ops ih =>
    exact forall₂_flagEvolution_trans (applyOp_forall₂ op s) (ih (applyOp op s))

theorem forall₂_get?_some {r : Beat → Beat → Prop} {l₁ l₂ : List Beat}
    (h : List.Forall₂ r l₁ l₂) :
    ∀ i b, l₁.get? i = some b → ∃ c, l₂.get? i = some c ∧ r b c := by
  induction h with
  | nil => intro i b hb; simp at hb
  | cons hab h ih =>
    intro i b hb
    cases i with
    | zero =>
      injection hb with hb
      subst hb
      exact ⟨_, rfl, hab⟩
    | succ n => exact ih n b hb

theorem forall₂_exists_mem_left {r : Beat → Beat → Prop} {l₁ l₂ : List Beat}
    (h : List.Forall₂ r l₁ l₂) : ∀ c ∈ l₂, ∃ b ∈ l₁, r b c := by
  induction h with
  | nil => intro c hc; simp at hc
  | cons hab h ih =>
    intro c hc
    rcases List.mem_cons.mp hc with rfl | hc
    · exact ⟨_, List.mem_cons_self _ _, hab⟩
    · obtain ⟨b, hbmem, hr⟩ := ih c hc
      exact ⟨b, List.mem_cons_of_mem _ hbmem, hr⟩

/-- C4: over any sequence of ticks and lane presses, a note whose hit or
missed flag is set stays exactly as it is (so it is excluded from judgment and
sweeping forever), and the two flags never become simultaneously true when
they start mutually exclusive. -/
theorem c4_flags_terminal (ops : List GameOp) (s : GState) :
    (∀ i b, s.beats.get? i = some b → b.hit = true ∨ b.missed = true →
      (applyOps ops s).beats.get? i = some b) ∧
    ((∀ b ∈ s.beats, ¬(b.hit = true ∧ b.missed = true)) →
      ∀ c ∈ (applyOps ops s).beats, ¬(c.hit = true ∧ c.missed = true)) := by
  have hall := applyOps_forall₂ ops s
  constructor
  · intro i b hb hflag
    obtain ⟨c, hc, hEvo⟩ := forall₂_get?_some hall i b hb
    rw [hEvo.1 hflag] at hc
    exact hc
  · intro hex c hc hcc
    obtain ⟨b, hbmem, hEvo⟩ := forall₂_exists_mem_left hall c hc
    exact hex b hbmem (hEvo.2 hcc)

/-- C5: when a press finds an eligible note in a chart produced by the load
sort, exactly that note — the first eligible one in chart order — is marked
hit (all others are returned unchanged), and its scheduled time is minimal
among all eligible notes; the choice is a function of the state, hence
deterministic. -/
theorem c5_first_eligible (laneIndex now rand : ℚ) (s : GState) (bs0 : List Beat)
    (b : Beat) (l : List Beat)
    (hp : s.phase = GameState.PLAYING) (hn : 0 ≤ now)
    (hsort : s.beats = sortChart bs0)
    (hf : hitFind laneIndex now s.beats = some (b, l)) :
    (handleLaneInput laneIndex now rand s).1.beats = l ∧
    hittable laneIndex now b = true ∧
    (∃ l₁ l₂, s.beats = l₁ ++ b :: l₂ ∧ l = l₁ ++ { b with hit := true } :: l₂ ∧
      ∀ c ∈ l₁, hittable laneIndex now c = false) ∧
    (∀ c ∈ s.beats, hittable laneIndex now c = true → b.time ≤ c.time) := by
  obtain ⟨hb, l₁, l₂, hbs, hl, hfront⟩ := hitFind_some _ _ _ _ _ hf
  refine ⟨?_, hb, ⟨l₁, l₂, hbs, hl, hfront⟩, ?_⟩
  · rw [handleLaneInput, if_neg (by simp [hp]), if_neg (not_lt.mpr hn), hf]
  · have hsorted : List.Sorted timeLE s.beats := by
      rw [hsort]
      exact List.sorted_insertionSort timeLE bs0
    intro c hc hcheck
    rw [hbs] at hsorted hc
    rcases List.mem_append.mp hc with hcl | hcr
    · exact absurd hcheck (by simp [hfront c hcl])
    · rcases List.mem_cons.mp hcr with rfl | hcl₂
      · exact le_refl _
      · obtain ⟨-, h2, -⟩ := List.pairwise_append.mp hsorted
        exact (List.pairwise_cons.mp h2).1 c hcl₂

/-- C5 witness: in the concrete one-note sorted chart, the press marks the
single eligible note hit and returns the rest unchanged. -/
theorem c5_first_eligible_witness :
    (handleLaneInput 1 1 0 oneNoteState).1.beats =
      [{ id := 0, time := 1, lane := 1, hit := true, missed := false }] :=
  (c5_first_eligible 1 1 0 oneNoteState [⟨0, 1, 1, false, false⟩]
    ⟨0, 1, 1, false, false⟩ [⟨0, 1, 1, true, false⟩]
    rfl (by decide) (by decide) (by decide)).1

/-- The freshly-reset SETUP state. -/
def initSetup : GState :=
  { phase := GameState.SETUP, beats := [], score := 0, combo := 0, heat := 0 }

/-- C6 counterexample: loading the chart `[{time: 1, lane: 5}]` stores a note
whose lane is 5, not the centre lane 1 and not any lane in {0, 1, 2}: the
loader does not clamp or default out-of-range lanes. -/
theorem c6_lane_passthrough_counterexample :
    (startGame true (Payload.arr [ChartEntry.obj 1 (some 5)]) initSetup).1.beats =
      [{ id := 0, time := 1, lane := 5, hit := false, missed := false }] ∧
    ¬((5 : ℚ) = 0 ∨ (5 : ℚ) = 1 ∨ (5 : ℚ) = 2) := by
  decide

/-- The lane value startGame's map stores for one entry:
`typeof b === 'number' ? 1 : (b.lane ?? 1)`. -/
def entryLane : ChartEntry → ℚ
  | ChartEntry.num _ => 1
  | ChartEntry.obj _ l => l.getD 1
  | ChartEntry.nullish => 1

theorem parseBeat_id {i : Nat} {e : ChartEntry} {b : Beat} (h : parseBeat i e = some b) :
    b.id = i := by
  cases e with
  | num t => cases h; rfl
  | obj t l => cases h; rfl
  | nullish => simp [parseBeat] at h

theorem parseBeat_lane {i : Nat} {e : ChartEntry} {b : Beat} (h : parseBeat i e = some b) :
    b.lane = entryLane e ∧ e ≠ ChartEntry.nullish := by
  cases e with
  | num t => cases h; exact ⟨rfl, by simp⟩
  | obj t l => cases h; exact ⟨rfl, by simp⟩
  | nullish => simp [parseBeat] at h

theorem parseBeats_spec : ∀ (es : List ChartEntry) (i : Nat) (bs : List Beat),
    parseBeats i es = some bs →
    ∀ b ∈ bs, i ≤ b.id ∧ ∃ e, es.get? (b.id - i) = some e ∧ parseBeat b.id e = some b := by
  intro es
  induction es with
  | nil =>
    intro i bs h b hb
    rw [parseBeats] at h
    injection h with h
    subst h
    simp at hb
  | cons e rest ih =>
    intro i bs h b hb
    rw [parseBeats] at h
    cases hpe : parseBeat i e with
    | none => rw [hpe] at h; exact absurd h (by simp)
    | some b0 =>
      cases hpr : parseBeats (i + 1) rest with
      | none => rw [hpe, hpr] at h; exact absurd h (by simp)
      | some bs0 =>
        rw [hpe, hpr] at h
        injection h with h
        subst h
        rcases List.mem_cons.mp hb with rfl | hb
        · have hid : b.id = i := parseBeat_id hpe
          refine ⟨hid.ge, e, ?_, ?_⟩
          · rw [hid, Nat.sub_self]
            rfl
          · rw [hid]
            exact hpe
        · obtain ⟨hge, e', hgete, hparse⟩ := ih (i + 1) bs0 hpr b hb
          refine ⟨le_trans (Nat.le_succ i) hge, e', ?_, hparse⟩
          have hix : b.id - i = (b.id - (i + 1)) + 1 := by omega
          rw [hix]
          simpa using hgete

/-- C6 (amended): for every successfully loaded chart, each stored note's lane
is exactly what `typeof b === 'number' ? 1 : (b.lane ?? 1)` gives for its
entry — 1 for bare numbers and lane-less objects, and the entry's own lane
value otherwise, passed through unchanged even when it lies outside {0,1,2}. -/
theorem c6_lane_passthrough (es : List ChartEntry) (s : GState) (bs : List Beat)
    (h : parseBeats 0 es = some bs) :
    ∀ b ∈ (startGame true (Payload.arr es) s).1.beats,
      ∃ e, es.get? b.id = some e ∧ b.lane = entryLane e ∧ e ≠ ChartEntry.nullish := by
  have hsg : (startGame true (Payload.arr es) s).1.beats = sortChart bs := by
    simp [startGame, h]
  intro b hb
  rw [hsg] at hb
  have hb' : b ∈ bs := (List.perm_insertionSort timeLE bs).mem_iff.mp hb
  obtain ⟨-, e, hget, hparse⟩ := parseBeats_spec es 0 bs h b hb'
  obtain ⟨hlane, hnn⟩ := parseBeat_lane hparse
  exact ⟨e, by simpa using hget, hlane, hnn⟩

/-- C6 witness: loading `[2, {time: 1, lane: 7}]` stores the second entry's
out-of-range lane 7 unchanged. -/
theorem c6_lane_passthrough_witness :
    ∃ e, [ChartEntry.num 2, ChartEntry.obj 1 (some 7)].get?
        (Beat.id ⟨1, 1, 7, false, false⟩) = some e ∧
      Beat.lane ⟨1, 1, 7, false, false⟩ = entryLane e ∧ e ≠ ChartEntry.nullish :=
  c6_lane_passthrough [ChartEntry.num 2, ChartEntry.obj 1 (some 7)] initSetup
    [⟨0, 2, 1, false, false⟩, ⟨1, 1, 7, false, false⟩] (by decide)
    ⟨1, 1, 7, false, false⟩ (by decide)

/-- C7 counterexample: with ready audio, the empty chart array `[]` — which
the claim's validation would reject as empty — starts the game: the phase
becomes PLAYING with an empty note list. -/
theorem c7_empty_chart_counterexample :
    initSetup.phase = GameState.SETUP ∧
    (startGame true (Payload.arr []) initSetup).1.phase = GameState.PLAYING ∧
    (startGame true (Payload.arr []) initSetup).1.beats = [] := by
  decide

/-- C7 (amended): from SETUP, startGame reaches PLAYING exactly when the audio
source is ready and the payload parses to an array whose element mapping does
not throw (every entry a number or an object); no non-emptiness, time or
lane-range validation exists, so in particular an empty array starts the game.
Every failing input leaves the state (and hence the SETUP phase) untouched. -/
theorem c7_start_validation (ready : Bool) (p : Payload) (s : GState)
    (h : s.phase = GameState.SETUP) :
    ((startGame ready p s).1.phase = GameState.PLAYING ↔
      ready = true ∧ ∃ es, p = Payload.arr es ∧ (parseBeats 0 es).isSome = true) ∧
    ((startGame ready p s).2 ≠ StartResult.started → (startGame ready p s).1 = s) := by
  cases ready with
  | false => simp [startGame, h]
  | true =>
    cases p with
    | empty => simp [startGame, h]
    | parseError => simp [startGame, h]
    | notArr => simp [startGame, h]
    | arr es =>
      cases hpb : parseBeats 0 es with
      | none => simp [startGame, hpb, h]
      | some bs => simp [startGame, hpb]

/-- C7 witness: with ready audio and the one-entry chart `[1]`, startGame
reaches PLAYING from the SETUP state. -/
theorem c7_start_validation_witness :
    (startGame true (Payload.arr [ChartEntry.num 1]) initSetup).1.phase =
      GameState.PLAYING :=
  (c7_start_validation true (Payload.arr [ChartEntry.num 1]) initSetup rfl).1.mpr
    ⟨rfl, [ChartEntry.num 1], rfl, rfl⟩

/-- C8: for a chart payload that fails JSON.parse or is not an array,
startGame reports the 谱面数据无效 validation error and returns the state
exactly as it was: no phase change and no mutation of chart, score, combo or
heat (the rejection is atomic). -/
theorem c8_malformed_rejection (s : GState) :
    startGame true Payload.parseError s = (s, StartResult.errInvalid) ∧
    startGame true Payload.notArr s = (s, StartResult.errInvalid) :=
  ⟨rfl, rfl⟩

theorem applyOp_heat_bounds (op : GameOp) (s : GState)
    (h0 : 0 ≤ s.heat) (h1 : s.heat ≤ 100) :
    0 ≤ (applyOp op s).heat ∧ (applyOp op s).heat ≤ 100 := by
  have hw : (0 : ℚ) ≤ mkRat 15 100 := by decide
  cases op with
  | pressOp laneIndex now rand =>
    simp only [applyOp]
    rw [handleLaneInput]
    by_cases hp : s.phase ≠ GameState.PLAYING
    · rw [if_pos hp]
      exact ⟨h0, h1⟩
    · rw [if_neg hp]
      by_cases hn : now < 0
      · rw [if_pos hn]
        exact ⟨h0, h1⟩
      · rw [if_neg hn]
        cases hf : hitFind laneIndex now s.beats with
        | none => exact ⟨h0, h1⟩
        | some p =>
          obtain ⟨b, bs⟩ := p
          show 0 ≤ Math.min 100 (s.heat + _) ∧ Math.min 100 (s.heat + _) ≤ 100
          rw [mathMin_eq]
          have hd : (0 : ℚ) ≤
              if Math.abs (b.time - now) < PERFECT_WINDOW then (10 : ℚ) else 5 := by
            split_ifs <;> norm_num
          exact ⟨le_min (by norm_num) (by linarith), min_le_left _ _⟩
  | tickOp now dur =>
    simp only [applyOp]
    by_cases hp : s.phase ≠ GameState.PLAYING
    · rw [loop, if_pos hp]
      exact ⟨h0, h1⟩
    · have hh1 : 0 ≤ Math.max 0 (s.heat - mkRat 15 100) ∧
          Math.max 0 (s.heat - mkRat 15 100) ≤ 100 := by
        rw [mathMax_eq]
        exact ⟨le_max_left _ _, max_le (by norm_num) (by linarith)⟩
      simp only [loop]
      rw [if_neg hp]
      by_cases hfin : dur + 2 < now ∧ 0 < dur
      · rw [if_pos hfin]
        exact hh1
      · rw [if_neg hfin]
        by_cases hz : 0 < now
        · rw [if_pos hz]
          show 0 ≤ (sweep now s.beats s.combo _).2.2 ∧ (sweep now s.beats s.combo _).2.2 ≤ 100
          rw [sweep_eq]
          by_cases hk : s.beats.countP (sweepCond now) = 0
          · simpa [hk] using hh1
          · simp only [hk, if_false]
            have hks : (0 : ℚ) ≤ 15 * (s.beats.countP (sweepCond now) : ℚ) :=
              mul_nonneg (by norm_num) (Nat.cast_nonneg _)
            exact ⟨le_max_left _ _, max_le (by norm_num) (by linarith [hh1.2])⟩
        · rw [if_neg hz]
          exact hh1

/-- C9: heat stays within [0, 100] across any sequence of ticks and lane
presses: hits add their delta capped at 100 by Math.min, and both the per-tick
0.15 decay and the per-miss 15 penalty are floored at 0 by Math.max, so from
any in-range heat (in particular the initial 0) the bound is invariant. -/
theorem c9_heat_bounded (ops : List GameOp) (s : GState)
    (h0 : 0 ≤ s.heat) (h1 : s.heat ≤ 100) :
    0 ≤ (applyOps ops s).heat ∧ (applyOps ops s).heat ≤ 100 := by
  induction ops generalizing s with
  | nil => exact ⟨h0, h1⟩
  | cons op ops ih =>
    obtain ⟨g0, g1⟩ := applyOp_heat_bounds op s h0 h1
    exact ih (applyOp op s) g0 g1

/-- C9 witness: a concrete press-then-tick run from the zero-heat one-note
state stays within the bounds. -/
theorem c9_heat_bounded_witness :
    0 ≤ (applyOps [GameOp.pressOp 1 1 0, GameOp.tickOp 2 30] oneNoteState).heat ∧
    (applyOps [GameOp.pressOp 1 1 0, GameOp.tickOp 2 30] oneNoteState).heat ≤ 100 :=
  c9_heat_bounded [GameOp.pressOp 1 1 0, GameOp.tickOp 2 30] oneNoteState
    (by decide) (by decide)

/-- C10: getCurrentTime returns exactly 0 whenever no source node is active —
in particular in the freshly constructed service and right after stop() — and
a negative reading is only possible while both the context and a scheduled
source exist, so no negative clock is observable outside an active pre-roll. -/
theorem c10_clock_zero_without_source (a : AudioService) (t : ℚ) :
    (a.sourceActive = false → AudioService.getCurrentTime a t = 0) ∧
    AudioService.getCurrentTime (AudioService.stop a) t = 0 ∧
    AudioService.getCurrentTime AudioService.initial t = 0 ∧
    (AudioService.getCurrentTime a t < 0 →
      a.sourceActive = true ∧ a.ctxActive = true) := by
  refine ⟨?_, ?_, ?_, ?_⟩
  · intro hs
    simp [AudioService.getCurrentTime, hs]
  · simp [AudioService.getCurrentTime, AudioService.stop]
  · simp [AudioService.getCurrentTime, AudioService.initial]
  · intro hneg
    cases hsrc : a.sourceActive with
    | false => simp [AudioService.getCurrentTime, hsrc] at hneg
    | true =>
      cases hctx : a.ctxActive with
      | false => simp [AudioService.getCurrentTime, hctx] at hneg
      | true => exact ⟨rfl, rfl⟩

end Boom
